import Mathlib

/-!
Verification of the bilbot trading system core: the SMA/EMA crossover
detector (`sma_ema_crossover_algo.py`), the indicator engine (pandas
`ewm`/`rolling` calls plus the hand-rolled variants in
`sma_ema_crossover_algo_agg.py` and `algos/smaEmaCrossoverAlgo.py`), and
the position/capital logic of `BlingBot` (`bling_bot.py`), `TradingBot`
(`trading_bot.py`) and the session loop (`bling.py`).

Machine floats are modelled as rationals; pandas NaN cells are modelled
as `Option` values (`none` = NaN).  Python strings holding signal names
are modelled as Lean `String`s so that the codomain ("BUY"/"SELL"/other)
stays an honest question rather than being baked into an enum.
-/

namespace Bilbot

/-- One OHLCV bar as used by the indicator/signal code.  Only `timestamp`
and `close` are ever read by the modelled functions; the other OHLCV
columns are omitted. -/
structure PriceRow where
  ts : ℕ
  close : ℚ
deriving DecidableEq, Repr

/-- A row of the indicator DataFrame: close price plus the `ema_9` and
`sma_21` columns, where `none` models a pandas NaN cell. -/
structure IndRow where
  ts : ℕ
  close : ℚ
  ema : Option ℚ
  sma : Option ℚ
deriving DecidableEq, Repr

/-- Python truthiness of `self.current_signal or "SELL"`: `None` and the
empty string both fall through to `"SELL"`. -/
def pyOr (s : Option String) : String :=
  match s with
  | none => "SELL"
  | some str => if str = "" then "SELL" else str

/-- `ema_9 > sma_21` on one row, the strict comparison used everywhere in
`detect_crossover` and `_find_last_crossover_signal` (lines 200-201,
355-356).  Rows with a NaN cell are never compared by the source, so the
catch-all value is irrelevant. -/
def rowAbove (r : IndRow) : Bool :=
  match r.ema, r.sma with
  | some e, some s => decide (s < e)
  | _, _ => false

/-- A row with both indicator cells non-NaN. -/
def validRow (r : IndRow) : Bool :=
  r.ema.isSome && r.sma.isSome

/-- `df.dropna(subset=['ema_9', 'sma_21'])` (line 348). -/
def validRows (df : List IndRow) : List IndRow :=
  df.filter validRow

/-- The `ema_9 > sma_21` flags of the valid rows, in chronological order. -/
def abovesOf (df : List IndRow) : List Bool :=
  (validRows df).map rowAbove

/-- `df.tail(2)` viewed as an ordered pair; `none` when the frame has
fewer than two rows. -/
def lastTwoRows (df : List IndRow) : Option (IndRow × IndRow) :=
  match df.drop (df.length - 2) with
  | [a, b] => some (a, b)
  | _ => none

/-- The descending scan of `_find_last_crossover_signal` (lines 354-365):
`for i in range(len(valid_data) - 1, 0, -1)` comparing the above-flags at
`i` and `i-1`; the first differing pair wins and the current flag is
returned.  The argument is the index `i` being examined. -/
def findCrossDesc (v : List Bool) : ℕ → Option Bool
  | 0 => none
  | j + 1 =>
    if v.getD (j + 1) false ≠ v.getD j false then some (v.getD (j + 1) false)
    else findCrossDesc v j

/-- `SmaEmaCrossoverAlgo._find_last_crossover_signal` (lines 337-376):
guard on frame length, drop NaN rows, scan the above-flags backwards for
the most recent change, else fall back to the latest flag. -/
def findLastCrossoverSignal (df : List IndRow) : String :=
  if df.length < 2 then "SELL"
  else if (validRows df).length < 2 then "SELL"
  else
    match findCrossDesc (abovesOf df) ((abovesOf df).length - 1) with
    | some true => "BUY"
    | some false => "SELL"
    | none =>
      match (abovesOf df).getLast? with
      | some true => "BUY"
      | _ => "SELL"

/-- The state update shared by the NaN branch (lines 189-190) and the
no-crossover branch (lines 236-237) of `detect_crossover`: when
`current_signal` is `None`, look back for the last crossover; otherwise
keep it. -/
def keepOrScan (st : Option String) (df : List IndRow) : Option String :=
  match st with
  | none => some (findLastCrossoverSignal df)
  | some s => some s

/-- The dict returned by `detect_crossover` / `get_signal`.  Keys absent
from a given return value are modelled as `none`. -/
structure SignalInfo where
  signal : String
  price : Option ℚ
  reason : String
  timestamp : Option ℕ
  ema : Option ℚ
  sma : Option ℚ
  crossoverType : Option String
  emaAboveSma : Option Bool
deriving DecidableEq, Repr

/-- `SmaEmaCrossoverAlgo.detect_crossover` (lines 166-247).  The mutable
`self.current_signal` is threaded explicitly: input state in, output
state alongside the returned dict. -/
def detectCrossover (st : Option String) (df : List IndRow) :
    SignalInfo × Option String :=
  if df.length < 2 then
    ({ signal := pyOr st, price := none, reason := "Insufficient data",
       timestamp := none, ema := none, sma := none,
       crossoverType := none, emaAboveSma := none }, st)
  else
    match lastTwoRows df with
    | none =>
      -- unreachable: df has at least two rows
      ({ signal := pyOr st, price := none, reason := "Insufficient data",
         timestamp := none, ema := none, sma := none,
         crossoverType := none, emaAboveSma := none }, st)
    | some (r0, r1) =>
      if !(validRow r0) || !(validRow r1) then
        -- NaN among the last two indicator cells (line 187)
        let st1 := keepOrScan st df
        ({ signal := pyOr st1, price := some r1.close,
           reason := "Invalid indicators (NaN values) - maintaining last signal",
           timestamp := some r1.ts, ema := none, sma := none,
           crossoverType := none, emaAboveSma := none }, st1)
      else
        let prevAbove := rowAbove r0
        let currAbove := rowAbove r1
        if !prevAbove && currAbove then
          ({ signal := "BUY", price := some r1.close,
             reason := "EMA(9) crossed above SMA(21)",
             timestamp := some r1.ts, ema := r1.ema, sma := r1.sma,
             crossoverType := some "bullish", emaAboveSma := none },
           some "BUY")
        else if prevAbove && !currAbove then
          ({ signal := "SELL", price := some r1.close,
             reason := "EMA(9) crossed below SMA(21)",
             timestamp := some r1.ts, ema := r1.ema, sma := r1.sma,
             crossoverType := some "bearish", emaAboveSma := none },
           some "SELL")
        else
          let st1 := keepOrScan st df
          ({ signal := pyOr st1, price := some r1.close,
             reason := "No crossover detected - maintaining " ++ pyOr st1 ++ " signal",
             timestamp := some r1.ts, ema := r1.ema, sma := r1.sma,
             crossoverType := none, emaAboveSma := some currAbove }, st1)

/-- Repeated `detect_crossover` calls against successive frames, collecting
the returned signal strings and the final detector state. -/
def runDetector (st : Option String) (dfs : List (List IndRow)) :
    List String × Option String :=
  match dfs with
  | [] => ([], st)
  | d :: rest =>
    let r := detectCrossover st d
    let rr := runDetector r.2 rest
    (r.1.signal :: rr.1, rr.2)

/-- The last two rows of the frame exist, are valid, and show an
up-crossing of the strict `ema > sma` comparison. -/
def isUpCross (df : List IndRow) : Bool :=
  match lastTwoRows df with
  | some (a, b) => validRow a && validRow b && !(rowAbove a) && rowAbove b
  | none => false

/-- The last two rows of the frame exist, are valid, and show a
down-crossing of the strict `ema > sma` comparison. -/
def isDownCross (df : List IndRow) : Bool :=
  match lastTwoRows df with
  | some (a, b) => validRow a && validRow b && rowAbove a && !(rowAbove b)
  | none => false

/-- The last two rows do NOT form a crossover: either the frame is too
short, or one of the four indicator cells is NaN, or the two strict
comparisons agree. -/
def noFreshCross (df : List IndRow) : Bool :=
  match lastTwoRows df with
  | some (a, b) => !(validRow a && validRow b && (rowAbove a != rowAbove b))
  | none => true

/-- A fully valid indicator row with the given `ema_9` and `sma_21`
values (used for concrete witness inputs). -/
def mkRow (e s : ℚ) : IndRow :=
  { ts := 0, close := 1, ema := some e, sma := some s }

/-! ## Indicator engine

`calculate_ema` (lines 128-140) calls pandas
`df[column].ewm(span=period, adjust=False).mean()`, whose documented
semantics with `adjust=False` is the recurrence
`y_0 = x_0`, `y_i = alpha * x_i + (1 - alpha) * y_{i-1}` with
`alpha = 2 / (span + 1)`.  `calculate_sma` (lines 114-126) calls
`df[column].rolling(window=period).mean()`: NaN until `period` values
are available, then the trailing mean. -/

/-- Tail of the exponentially weighted mean: previous smoothed value and
the remaining inputs. -/
def ewmAcc (alpha prev : ℚ) : List ℚ → List ℚ
  | [] => []
  | c :: cs =>
    let e := alpha * c + (1 - alpha) * prev
    e :: ewmAcc alpha e cs

/-- `Series.ewm(alpha, adjust=False).mean()` on a list of closes. -/
def ewm (alpha : ℚ) : List ℚ → List ℚ
  | [] => []
  | c :: cs => c :: ewmAcc alpha c cs

/-- `Series.rolling(window=period).mean()`: entry `i` is NaN (`none`)
while fewer than `period` values are available, else the mean of the
trailing `period` values ending at `i`. -/
def rollingMean (period : ℕ) (closes : List ℚ) : List (Option ℚ) :=
  (List.range closes.length).map fun i =>
    if period ≤ i + 1 then
      some (((closes.take (i + 1)).drop (i + 1 - period)).sum / period)
    else none

/-- `SmaEmaCrossoverAlgo.calculate_ema` (lines 128-140): pandas ewm with
`span = period`, so `alpha = 2 / (period + 1)`. -/
def calculate_ema (period : ℕ) (closes : List ℚ) : List ℚ :=
  ewm (2 / (period + 1)) closes

/-- `SmaEmaCrossoverAlgo.calculate_sma` (lines 114-126). -/
def calculate_sma (period : ℕ) (closes : List ℚ) : List (Option ℚ) :=
  rollingMean period closes

/-- `SmaEmaCrossoverAlgo.add_technical_indicators` (lines 142-164) viewed
as a value-level function: attach the `sma_21` and `ema_9` columns
(periods 21 and 9, the instance fields set in `__init__`) to each bar.
An empty frame is returned unchanged (line 149). -/
def addTechnicalIndicators (bars : List PriceRow) : List IndRow :=
  let closes := bars.map (·.close)
  let emas := calculate_ema 9 closes
  let smas := calculate_sma 21 closes
  (List.range bars.length).map fun i =>
    { ts := (bars.getD i ⟨0, 0⟩).ts
      close := (bars.getD i ⟨0, 0⟩).close
      ema := emas.getD i 0 |> some
      sma := smas.getD i none }

/-- `SmaEmaCrossoverAlgoAgg.get_ema` (`sma_ema_crossover_algo_agg.py`
lines 74-101): `aggs` are close prices most-recent-first; take the first
`emaPeriod`, reverse to ascending, then either fold the ewm recurrence
(seeded with the oldest of them) or, with fewer than `emaPeriod` points,
return their plain average.  `none` models the `return None` on empty
input. -/
def aggGetEma (emaPeriod : ℕ) (aggs : List ℚ) : Option ℚ :=
  if aggs = [] then none
  else
    let closes := (aggs.take emaPeriod).reverse
    if emaPeriod ≤ closes.length then
      match closes with
      | [] => none
      | c :: cs =>
        some (cs.foldl
          (fun e price =>
            (2 / (emaPeriod + 1 : ℚ)) * price + (1 - 2 / (emaPeriod + 1 : ℚ)) * e) c)
    else some (closes.sum / closes.length)

/-! ## DataFrame object identity (for the purity claim)

pandas column assignment `df['sma_21'] = ...` mutates the caller's
DataFrame object in place, while `df.copy()` detaches.  To make that
observable in the embedding, a DataFrame object is a record of the bar
rows plus the optional indicator columns, and each indicator routine is
modelled as returning the pair (returned frame, caller's frame after the
call). -/

/-- A DataFrame object: OHLCV rows plus indicator columns when present
(`none` = column absent). -/
structure DF where
  rows : List PriceRow
  emaCol : Option (List ℚ)
  smaCol : Option (List (Option ℚ))
deriving DecidableEq, Repr

/-- `SmaEmaCrossoverAlgo.add_technical_indicators` (lines 142-164) with
object identity: the function assigns the new columns directly on its
argument (`df['sma_21'] = ...`, `df['ema_9'] = ...`) and returns it, so
the caller's frame after the call is the mutated frame.  An empty frame
is returned before any assignment. -/
def addTechnicalIndicatorsFull (df : DF) : DF × DF :=
  if df.rows = [] then (df, df)
  else
    let closes := df.rows.map (·.close)
    let d := { df with
      smaCol := some (calculate_sma 21 closes)
      emaCol := some (calculate_ema 9 closes) }
    (d, d)

/-- `algos/smaEmaCrossoverAlgo.py` `calculate_indicators` (lines 24-45)
with object identity: it raises `ValueError` on an empty frame (the
missing-'close'-column disjunct is not representable here because `DF`
always carries its rows), otherwise works on `df.copy()`, so the
caller's frame is unchanged in every case.  Default periods 9/21 from
`__init__`. -/
def calculateIndicatorsFull (df : DF) : Except Unit DF × DF :=
  if df.rows = [] then (.error (), df)
  else
    let closes := df.rows.map (·.close)
    (.ok { df with
      emaCol := some (calculate_ema 9 closes)
      smaCol := some (calculate_sma 21 closes) }, df)

/-! ## Bot state: capital tracking, position refresh, trade execution -/

/-- The broker's open-position record: `qty` and the (possibly absent /
falsy) `market_value`. -/
structure BrokerPos where
  qty : ℚ
  marketValue : Option ℚ
deriving DecidableEq, Repr

/-- The per-bot mutable fields involved in the modelled claims. -/
structure BotState where
  initialValue : ℚ
  currentValue : ℚ
  currentPosition : ℚ
deriving DecidableEq, Repr

/-- `BlingBot._update_current_value` (lines 180-191): the in-memory value
(and the persisted copy, not modelled) changes only when the difference
exceeds $0.01. -/
def updateCurrentValue (st : BotState) (newValue : ℚ) : BotState :=
  if 1 / 100 < |newValue - st.currentValue| then
    { st with currentValue := newValue }
  else st

/-- `BlingBot.get_open_position` (lines 256-281).  `broker = none` models
the collaborator raising "position not found"; `marketValue = none`
models a falsy `position.market_value`.  Returns the updated state and
the quantity the method returns. -/
def getOpenPosition (st : BotState) (broker : Option BrokerPos) :
    BotState × ℚ :=
  match broker with
  | some p =>
    let st1 := { st with currentPosition := p.qty }
    match p.marketValue with
    | some mv => (updateCurrentValue st1 |mv|, p.qty)
    | none => (st1, p.qty)
  | none =>
    let st1 := { st with currentPosition := 0 }
    (updateCurrentValue st1 st.initialValue, 0)

/-- `TradingBot.get_open_position` (`trading_bot.py` lines 189-213): same
shape but the not-found branch resets `current_value` to
`initial_value` directly, with no epsilon. -/
def tGetOpenPosition (st : BotState) (broker : Option BrokerPos) :
    BotState × ℚ :=
  match broker with
  | some p =>
    let st1 := { st with currentPosition := p.qty }
    match p.marketValue with
    | some mv => ({ st1 with currentValue := |mv| }, p.qty)
    | none => (st1, p.qty)
  | none =>
    ({ st with currentPosition := 0, currentValue := st.initialValue }, 0)

/-- An order passed to `submit_order`.  `notional` buys are sized in
dollars, `qty` orders in shares. -/
structure Order where
  side : String
  notional : Option ℚ
  qty : Option ℤ
deriving DecidableEq, Repr

/-- `BlingBot.execute_trade` (lines 303-339).  `closeOk` models whether
the broker's `close_position` call succeeds (its failure is caught
inside `close_position`, which then returns `False` without resetting
the tracked position).  Returns (state, the boolean the method returns,
orders submitted via `submit_order`). -/
def blingExecuteTrade (st : BotState) (broker : Option BrokerPos)
    (closeOk : Bool) (sig : String) : BotState × Bool × List Order :=
  let r := getOpenPosition st broker
  let st1 := r.1
  let pos := r.2
  if sig = "BUY" then
    if pos = 0 then
      (st1, true, [{ side := "BUY", notional := some st1.currentValue, qty := none }])
    else (st1, false, [])
  else if sig = "SELL" then
    if 0 < pos then
      if closeOk then ({ st1 with currentPosition := 0 }, true, [])
      else (st1, false, [])
    else (st1, false, [])
  else (st1, false, [])

/-- Python `int()` truncation toward zero on a rational. -/
def pyInt (q : ℚ) : ℤ :=
  if 0 ≤ q then ⌊q⌋ else ⌈q⌉

/-- `TradingBot.execute_trade` (`trading_bot.py` lines 235-299): refresh
the position, refuse ERROR/NONE signals and invalid prices, size
`shares_to_trade` from 90% of the tracked value, then buy whenever not
short (`current_position >= 0`), close on SELL when long, or short when
flat. -/
def tradingExecuteTrade (st : BotState) (broker : Option BrokerPos)
    (closeOk : Bool) (sig : String) (price : Option ℚ) :
    BotState × Bool × List Order :=
  let r := tGetOpenPosition st broker
  let st1 := r.1
  let pos := r.2
  if sig = "ERROR" ∨ sig = "NONE" then (st1, false, [])
  else
    let available := st1.currentValue * (9 / 10)
    match price with
    | none => (st1, false, [])
    | some p =>
      if p ≤ 0 then (st1, false, [])
      else
        let shares := pyInt (available / p)
        if shares ≤ 0 then (st1, false, [])
        else if sig = "BUY" then
          if 0 ≤ pos then
            (st1, true, [{ side := "BUY", notional := some st1.currentValue, qty := none }])
          else if closeOk then ({ st1 with currentPosition := 0 }, true, [])
          else (st1, false, [])
        else if sig = "SELL" then
          if 0 < pos then
            if closeOk then ({ st1 with currentPosition := 0 }, true, [])
            else (st1, false, [])
          else if pos = 0 then
            (st1, true, [{ side := "SELL", notional := none, qty := some shares }])
          else (st1, false, [])
        else (st1, false, [])

/-! ## Session guard and cycle boundary -/

/-- `BlingBot.calculate_pnl` (lines 252-254): plain ratio. -/
def calculate_pnl (st : BotState) : ℚ :=
  (st.currentValue - st.initialValue) / st.initialValue

/-- The halt test of `run_bot` (`bling.py` lines 63-69):
`pnl <= daily_pnl_threshold or pnl >= daily_gain_target`. -/
def haltCondition (pnl thr tgt : ℚ) : Bool :=
  decide (pnl ≤ thr) || decide (tgt ≤ pnl)

/-- The result record of one trading cycle. -/
structure RunResult where
  signal : String
  price : Option ℚ
  trade_executed : Bool
  pnl : ℚ
  per_symbol_value : ℚ
  recalculated : Bool
deriving DecidableEq, Repr

/-- The `try/except` boundary of `BlingBot.run` (lines 341-384): the
whole cycle body runs inside one `try`; any exception (carried here as a
message string) is caught and converted to the default record with
signal `"SELL"`, `trade_executed=False`, `pnl=0` and the current tracked
value.  The function is total: no exception escapes to the caller. -/
def blingRunBoundary (currentValue : ℚ) (body : Except String RunResult) :
    RunResult :=
  match body with
  | .ok r => r
  | .error _ =>
    { signal := "SELL", price := none, trade_executed := false,
      pnl := 0, per_symbol_value := currentValue, recalculated := false }

/-- The `try/except` boundary of `TradingBot.run` (`trading_bot.py`
lines 301-347): identical shape, but the default record carries signal
`"ERROR"`. -/
def tradingRunBoundary (currentValue : ℚ) (body : Except String RunResult) :
    RunResult :=
  match body with
  | .ok r => r
  | .error _ =>
    { signal := "ERROR", price := none, trade_executed := false,
      pnl := 0, per_symbol_value := currentValue, recalculated := false }

/-- `SmaEmaCrossoverAlgo.get_signal` (lines 282-318): fetch bars and
indicators, branch on an empty frame, else delegate to
`detect_crossover`; any exception in the body (modelled by `raised`) is
caught and answered with the sticky signal or the SELL default.
`fetch_aggregates` catches its own transport errors and returns an empty
frame, which is the `bars = []` path here. -/
def getSignal (st : Option String) (raised : Bool) (bars : List PriceRow) :
    SignalInfo × Option String :=
  if raised then
    ({ signal := pyOr st, price := none, reason := "Error",
       timestamp := none, ema := none, sma := none,
       crossoverType := none, emaAboveSma := none }, st)
  else if bars = [] then
    ({ signal := pyOr st, price := none, reason := "No data available",
       timestamp := none, ema := none, sma := none,
       crossoverType := none, emaAboveSma := none }, st)
  else detectCrossover st (addTechnicalIndicators bars)

/-- The detector-state invariant: `current_signal` is `None`, `"BUY"` or
`"SELL"` (its value after `__init__` and after every method). -/
def stateOK (st : Option String) : Bool :=
  st = none || st = some "BUY" || st = some "SELL"

/-! ## Helper lemmas -/

theorem lastTwoRows_length {df : List IndRow} {r0 r1 : IndRow}
    (h : lastTwoRows df = some (r0, r1)) : 2 ≤ df.length := by
  rcases df with _ | ⟨x, _ | ⟨y, t⟩⟩
  · simp [lastTwoRows] at h
  · simp [lastTwoRows] at h
  · simp

theorem lastTwoRows_drop {df : List IndRow} {r0 r1 : IndRow}
    (h : lastTwoRows df = some (r0, r1)) :
    df.drop (df.length - 2) = [r0, r1] := by
  unfold lastTwoRows at h
  rcases e : df.drop (df.length - 2) with _ | ⟨a, _ | ⟨b, _ | ⟨c, t⟩⟩⟩ <;>
    rw [e] at h <;> simp_all

theorem lastTwoRows_of_length (df : List IndRow) (h : 2 ≤ df.length) :
    ∃ r0 r1, lastTwoRows df = some (r0, r1) := by
  have hd : (df.drop (df.length - 2)).length = 2 := by
    rw [List.length_drop]; omega
  rcases e : df.drop (df.length - 2) with _ | ⟨a, _ | ⟨b, _ | ⟨c, t⟩⟩⟩ <;>
    rw [e] at hd <;> simp at hd
  exact ⟨a, b, by unfold lastTwoRows; rw [e]⟩

theorem findLastCrossoverSignal_mem (df : List IndRow) :
    findLastCrossoverSignal df = "BUY" ∨ findLastCrossoverSignal df = "SELL" := by
  unfold findLastCrossoverSignal
  split
  · exact Or.inr rfl
  split
  · exact Or.inr rfl
  split
  · exact Or.inl rfl
  · exact Or.inr rfl
  · split
    · exact Or.inl rfl
    · exact Or.inr rfl

theorem pyOr_of_stateOK {st : Option String} (h : stateOK st = true) :
    pyOr st = "BUY" ∨ pyOr st = "SELL" := by
  rcases st with _ | s
  · right; rfl
  · simp [stateOK] at h
    rcases h with h | h <;> subst h <;> simp [pyOr]

theorem keepOrScan_stateOK {st : Option String} (h : stateOK st = true)
    (df : List IndRow) : stateOK (keepOrScan st df) = true := by
  rcases st with _ | s
  · simp only [keepOrScan]
    rcases findLastCrossoverSignal_mem df with hm | hm <;> simp [stateOK, hm]
  · simpa [keepOrScan] using h

theorem keepOrScan_some {st : Option String} (s : String)
    (h : st = some s) (df : List IndRow) : keepOrScan st df = some s := by
  subst h; rfl

theorem pyOr_some_of_ne {s : String} (h : s ≠ "") : pyOr (some s) = s := by
  simp [pyOr, h]

/-- Branch lemma: short frame (`len(df) < 2`). -/
theorem detect_short {df : List IndRow} (h : df.length < 2)
    (st : Option String) :
    detectCrossover st df =
      ({ signal := pyOr st, price := none, reason := "Insufficient data",
         timestamp := none, ema := none, sma := none,
         crossoverType := none, emaAboveSma := none }, st) := by
  unfold detectCrossover
  rw [if_pos h]

/-- Branch lemma: NaN among the last two indicator cells. -/
theorem detect_invalid {df : List IndRow} {r0 r1 : IndRow}
    (hlt : lastTwoRows df = some (r0, r1))
    (hv : (validRow r0 && validRow r1) = false) (st : Option String) :
    (detectCrossover st df).1.signal = pyOr (keepOrScan st df)
    ∧ (detectCrossover st df).2 = keepOrScan st df
    ∧ (detectCrossover st df).1.crossoverType = none := by
  have h2 := lastTwoRows_length hlt
  have hc : (!(validRow r0) || !(validRow r1)) = true := by
    rcases h0 : validRow r0 <;> rcases h1 : validRow r1 <;> simp_all
  unfold detectCrossover
  rw [if_neg (by omega), hlt]
  simp [hc]

/-- Branch lemma: valid last two rows, up-crossing. -/
theorem detect_upcross {df : List IndRow} {r0 r1 : IndRow}
    (hlt : lastTwoRows df = some (r0, r1))
    (hv0 : validRow r0 = true) (hv1 : validRow r1 = true)
    (ha0 : rowAbove r0 = false) (ha1 : rowAbove r1 = true)
    (st : Option String) :
    (detectCrossover st df).1.signal = "BUY"
    ∧ (detectCrossover st df).2 = some "BUY"
    ∧ (detectCrossover st df).1.crossoverType = some "bullish" := by
  have h2 := lastTwoRows_length hlt
  unfold detectCrossover
  rw [if_neg (by omega)]
  rw [hlt]
  simp [hv0, hv1, ha0, ha1]

/-- Branch lemma: valid last two rows, down-crossing. -/
theorem detect_downcross {df : List IndRow} {r0 r1 : IndRow}
    (hlt : lastTwoRows df = some (r0, r1))
    (hv0 : validRow r0 = true) (hv1 : validRow r1 = true)
    (ha0 : rowAbove r0 = true) (ha1 : rowAbove r1 = false)
    (st : Option String) :
    (detectCrossover st df).1.signal = "SELL"
    ∧ (detectCrossover st df).2 = some "SELL"
    ∧ (detectCrossover st df).1.crossoverType = some "bearish" := by
  have h2 := lastTwoRows_length hlt
  unfold detectCrossover
  rw [if_neg (by omega)]
  rw [hlt]
  simp [hv0, hv1, ha0, ha1]

/-- Branch lemma: valid last two rows, no crossover (the two strict
comparisons agree). -/
theorem detect_nocross {df : List IndRow} {r0 r1 : IndRow}
    (hlt : lastTwoRows df = some (r0, r1))
    (hv0 : validRow r0 = true) (hv1 : validRow r1 = true)
    (heq : rowAbove r0 = rowAbove r1) (st : Option String) :
    (detectCrossover st df).1.signal = pyOr (keepOrScan st df)
    ∧ (detectCrossover st df).2 = keepOrScan st df
    ∧ (detectCrossover st df).1.crossoverType = none := by
  have h2 := lastTwoRows_length hlt
  unfold detectCrossover
  rw [if_neg (by omega)]
  rw [hlt]
  rcases hb : rowAbove r1 with _ | _ <;> rw [hb] at heq <;>
    simp [hv0, hv1, heq, hb]

/-- An up-crossing frame forces signal and state to BUY regardless of the
prior state. -/
theorem upCross_buy {df : List IndRow} (h : isUpCross df = true)
    (st : Option String) :
    (detectCrossover st df).1.signal = "BUY"
    ∧ (detectCrossover st df).2 = some "BUY" := by
  unfold isUpCross at h
  rcases hlt : lastTwoRows df with _ | ⟨r0, r1⟩
  · rw [hlt] at h; simp at h
  · rw [hlt] at h
    simp only [Bool.and_eq_true, Bool.not_eq_true'] at h
    obtain ⟨⟨⟨hv0, hv1⟩, ha0⟩, ha1⟩ := h
    exact ⟨(detect_upcross hlt hv0 hv1 ha0 ha1 st).1,
           (detect_upcross hlt hv0 hv1 ha0 ha1 st).2.1⟩

/-- A down-crossing frame forces signal and state to SELL regardless of
the prior state. -/
theorem downCross_sell {df : List IndRow} (h : isDownCross df = true)
    (st : Option String) :
    (detectCrossover st df).1.signal = "SELL"
    ∧ (detectCrossover st df).2 = some "SELL" := by
  unfold isDownCross at h
  rcases hlt : lastTwoRows df with _ | ⟨r0, r1⟩
  · rw [hlt] at h; simp at h
  · rw [hlt] at h
    simp only [Bool.and_eq_true, Bool.not_eq_true'] at h
    obtain ⟨⟨⟨hv0, hv1⟩, ha0⟩, ha1⟩ := h
    exact ⟨(detect_downcross hlt hv0 hv1 ha0 ha1 st).1,
           (detect_downcross hlt hv0 hv1 ha0 ha1 st).2.1⟩

/-- Once the state is BUY, any frame that is not a down-crossing leaves
both the returned signal and the state at BUY. -/
theorem buy_sticky {df : List IndRow} (h : isDownCross df = false) :
    (detectCrossover (some "BUY") df).1.signal = "BUY"
    ∧ (detectCrossover (some "BUY") df).2 = some "BUY" := by
  by_cases hlen : df.length < 2
  · rw [detect_short hlen]
    exact ⟨rfl, rfl⟩
  · obtain ⟨r0, r1, hlt⟩ := lastTwoRows_of_length df (by omega)
    have hks : keepOrScan (some "BUY") df = some "BUY" := rfl
    by_cases hv : (validRow r0 && validRow r1) = true
    · obtain ⟨hv0, hv1⟩ := Bool.and_eq_true _ _ |>.mp hv
      rcases ha0 : rowAbove r0 with _ | _ <;> rcases ha1 : rowAbove r1 with _ | _
      · have := detect_nocross hlt hv0 hv1 (ha0.trans ha1.symm) (some "BUY")
        rw [hks] at this
        exact ⟨this.1, this.2.1⟩
      · exact ⟨(detect_upcross hlt hv0 hv1 ha0 ha1 _).1,
               (detect_upcross hlt hv0 hv1 ha0 ha1 _).2.1⟩
      · exfalso
        unfold isDownCross at h
        rw [hlt] at h
        simp [hv0, hv1, ha0, ha1] at h
      · have := detect_nocross hlt hv0 hv1 (ha0.trans ha1.symm) (some "BUY")
        rw [hks] at this
        exact ⟨this.1, this.2.1⟩
    · have := detect_invalid hlt (by simpa using hv) (some "BUY")
      rw [hks] at this
      exact ⟨this.1, this.2.1⟩

/-- Once the state is SELL, any frame that is not an up-crossing leaves
both the returned signal and the state at SELL. -/
theorem sell_sticky {df : List IndRow} (h : isUpCross df = false) :
    (detectCrossover (some "SELL") df).1.signal = "SELL"
    ∧ (detectCrossover (some "SELL") df).2 = some "SELL" := by
  by_cases hlen : df.length < 2
  · rw [detect_short hlen]
    exact ⟨rfl, rfl⟩
  · obtain ⟨r0, r1, hlt⟩ := lastTwoRows_of_length df (by omega)
    have hks : keepOrScan (some "SELL") df = some "SELL" := rfl
    by_cases hv : (validRow r0 && validRow r1) = true
    · obtain ⟨hv0, hv1⟩ := Bool.and_eq_true _ _ |>.mp hv
      rcases ha0 : rowAbove r0 with _ | _ <;> rcases ha1 : rowAbove r1 with _ | _
      · have := detect_nocross hlt hv0 hv1 (ha0.trans ha1.symm) (some "SELL")
        rw [hks] at this
        exact ⟨this.1, this.2.1⟩
      · exfalso
        unfold isUpCross at h
        rw [hlt] at h
        simp [hv0, hv1, ha0, ha1] at h
      · exact ⟨(detect_downcross hlt hv0 hv1 ha0 ha1 _).1,
               (detect_downcross hlt hv0 hv1 ha0 ha1 _).2.1⟩
      · have := detect_nocross hlt hv0 hv1 (ha0.trans ha1.symm) (some "SELL")
        rw [hks] at this
        exact ⟨this.1, this.2.1⟩
    · have := detect_invalid hlt (by simpa using hv) (some "SELL")
      rw [hks] at this
      exact ⟨this.1, this.2.1⟩

/-- From a BUY state, a run over frames none of which down-cross yields
BUY on every tick and ends in the BUY state. -/
theorem runDetector_buy (post : List (List IndRow))
    (hp : ∀ d ∈ post, isDownCross d = false) :
    runDetector (some "BUY") post =
      (List.replicate post.length "BUY", some "BUY") := by
  induction post with
  | nil => rfl
  | cons d rest ih =>
    have hd := buy_sticky (hp d (List.mem_cons_self d rest))
    have hrest := ih fun x hx => hp x (List.mem_cons_of_mem d hx)
    simp only [runDetector, hd.1, hd.2, hrest, List.length_cons,
      List.replicate_succ]

/-! ## Claim theorems -/

/-- C1.  Crossover stickiness: over any sequence of `detect_crossover`
calls whose first frame is an up-crossing and whose later frames never
down-cross, the detector answers BUY on the crossing tick and BUY (never
HOLD/NONE) on every subsequent tick, ending in the BUY state; moreover,
once `current_signal` is BUY or SELL, the only frame that changes it is
one whose two latest valid points show the opposite transition of the
strict `fastEma > slowSma` comparison. -/
theorem c1_crossover_stickiness (st₀ : Option String)
    (cross : List IndRow) (post : List (List IndRow))
    (hc : isUpCross cross = true)
    (hp : ∀ d ∈ post, isDownCross d = false) :
    (runDetector st₀ (cross :: post)).1 = List.replicate (post.length + 1) "BUY"
    ∧ (runDetector st₀ (cross :: post)).2 = some "BUY"
    ∧ (∀ (s : String) (df : List IndRow), (s = "BUY" ∨ s = "SELL") →
        (detectCrossover (some s) df).2 ≠ some s →
        (if s = "BUY" then isDownCross df else isUpCross df) = true) := by
  have hstep := upCross_buy hc st₀
  have hrun := runDetector_buy post hp
  refine ⟨?_, ?_, ?_⟩
  · simp only [runDetector, hstep.1, hstep.2, hrun, List.replicate_succ]
  · simp only [runDetector, hstep.2, hrun]
  · intro s df hs hchange
    rcases hs with hs | hs <;> subst hs
    · rw [if_pos rfl]
      by_contra hdc
      exact hchange (buy_sticky (by simpa using hdc)).2
    · rw [if_neg (by decide)]
      by_contra huc
      exact hchange (sell_sticky (by simpa using huc)).2

/-- Witness for C1 at a concrete series: below-then-above crossing frame
followed by a staying-above frame. -/
theorem c1_witness :
    (runDetector none [[mkRow 1 2, mkRow 3 2], [mkRow 3 2, mkRow 4 2]]).1 =
      ["BUY", "BUY"] := by
  have h := c1_crossover_stickiness none [mkRow 1 2, mkRow 3 2]
      [[mkRow 3 2, mkRow 4 2]] (by decide) (by decide)
  simpa using h.1

/-- C7.  Tie-break by strict comparison: a tick where `fastEma == slowSma`
exactly is classified as not-above; equality alone never yields a new
bullish crossover, and a prior-above to equal transition is reported as a
bearish crossover (signal SELL, state SELL). -/
theorem c7_tie_break (st : Option String) (df : List IndRow)
    (r0 r1 : IndRow) (x : ℚ)
    (hlt : lastTwoRows df = some (r0, r1))
    (he : r1.ema = some x) (hs : r1.sma = some x)
    (hv0 : validRow r0 = true) :
    rowAbove r1 = false
    ∧ (detectCrossover st df).1.crossoverType ≠ some "bullish"
    ∧ (rowAbove r0 = true →
        (detectCrossover st df).1.signal = "SELL"
        ∧ (detectCrossover st df).2 = some "SELL"
        ∧ (detectCrossover st df).1.crossoverType = some "bearish") := by
  have ha1 : rowAbove r1 = false := by
    unfold rowAbove
    rw [he, hs]
    simp
  have hv1 : validRow r1 = true := by
    unfold validRow
    rw [he, hs]
    rfl
  refine ⟨ha1, ?_, ?_⟩
  · rcases ha0 : rowAbove r0 with _ | _
    · have := detect_nocross hlt hv0 hv1 (ha0.trans ha1.symm) st
      rw [this.2.2]
      simp
    · have := detect_downcross hlt hv0 hv1 ha0 ha1 st
      rw [this.2.2]
      simp
  · intro ha0
    exact detect_downcross hlt hv0 hv1 ha0 ha1 st

/-- Witness for C7: prior tick strictly above, current tick an exact
touch; the detector reports a bearish crossover. -/
theorem c7_witness :
    (detectCrossover none [mkRow 3 2, mkRow 2 2]).1.signal = "SELL"
    ∧ (detectCrossover none [mkRow 3 2, mkRow 2 2]).1.crossoverType =
        some "bearish" := by
  have h := c7_tie_break none [mkRow 3 2, mkRow 2 2] (mkRow 3 2) (mkRow 2 2)
      2 (by decide) (by decide) (by decide) (by decide)
  exact ⟨(h.2.2 (by decide)).1, (h.2.2 (by decide)).2.2⟩

/-- If all adjacent above-flags agree, the descending scan finds no
crossover. -/
theorem findCrossDesc_none {v : List Bool}
    (h : ∀ i, i + 1 < v.length → v.getD i false = v.getD (i + 1) false) :
    ∀ j, j < v.length → findCrossDesc v j = none := by
  intro j
  induction j with
  | zero => intro _; rfl
  | succ m ih =>
    intro hj
    unfold findCrossDesc
    rw [if_neg (by simpa using (h m hj).symm)]
    exact ih (by omega)

/-- If the flags change at position `k`/`k+1` and stay constant from
`k+1` on, the descending scan started anywhere at or after `k+1` returns
the flag at `k+1`. -/
theorem findCrossDesc_finds {v : List Bool} {k : ℕ}
    (hk : k + 1 < v.length)
    (hne : v.getD (k + 1) false ≠ v.getD k false)
    (hconst : ∀ i, k + 1 ≤ i → i < v.length →
      v.getD i false = v.getD (k + 1) false) :
    ∀ j, k + 1 ≤ j → j < v.length → findCrossDesc v j = some (v.getD (k + 1) false) := by
  intro j
  induction j with
  | zero => omega
  | succ m ih =>
    intro h1 h2
    by_cases hm : m = k
    · subst hm
      unfold findCrossDesc
      rw [if_pos hne]
    · have hm1 : k + 1 ≤ m := by omega
      unfold findCrossDesc
      rw [if_neg (by
        rw [hconst (m + 1) (by omega) h2, hconst m hm1 (by omega)]
        simp)]
      exact ih hm1 (by omega)

/-- Every entry of a constant list reads back as the constant. -/
theorem getD_all_eq {l : List Bool} {c : Bool} (h : ∀ x ∈ l, x = c)
    {m : ℕ} (hm : m < l.length) (d : Bool) : l.getD m d = c := by
  rw [List.getD_eq_getElem _ _ hm]
  exact h _ (List.getElem_mem hm)

/-- If the last two rows of the frame are both valid, the frame has at
least two valid rows. -/
theorem two_valid_of_lastTwo {df : List IndRow} {r0 r1 : IndRow}
    (hlt : lastTwoRows df = some (r0, r1))
    (hv0 : validRow r0 = true) (hv1 : validRow r1 = true) :
    2 ≤ (validRows df).length := by
  have hdrop := lastTwoRows_drop hlt
  have hsplit := List.take_append_drop (df.length - 2) df
  have h2 : 2 ≤ (validRows (df.take (df.length - 2) ++ df.drop (df.length - 2))).length := by
    rw [hdrop]
    simp [validRows, List.filter_append, hv0, hv1]
  rwa [hsplit] at h2

/-- `_find_last_crossover_signal` answers SELL when fewer than two valid
rows exist. -/
theorem findLast_sell_of_fewValid {df : List IndRow}
    (hv2 : (validRows df).length < 2) :
    findLastCrossoverSignal df = "SELL" := by
  unfold findLastCrossoverSignal
  rcases Nat.lt_or_ge df.length 2 with h | h
  · rw [if_pos h]
  · rw [if_neg (by omega), if_pos hv2]

/-- C5.  Backward-scan fallback: with the detector state unset and the
latest two indicator points not forming a crossover (or invalid), the
returned signal is `findLastCrossoverSignal` and the state is set to it;
that scan yields the direction of the most recent crossover among the
valid points when one exists, the sign of the latest `fastEma > slowSma`
comparison when none exists, and SELL with fewer than two valid points. -/
theorem c5_backward_scan_fallback (df : List IndRow)
    (hnf : noFreshCross df = true) :
    ((validRows df).length < 2 → (detectCrossover none df).1.signal = "SELL")
    ∧ (2 ≤ df.length →
        (detectCrossover none df).1.signal = findLastCrossoverSignal df
        ∧ (detectCrossover none df).2 = some (findLastCrossoverSignal df))
    ∧ (∀ (xs ys : List Bool) (a b : Bool),
        abovesOf df = xs ++ a :: b :: ys → a ≠ b → (∀ y ∈ ys, y = b) →
        findLastCrossoverSignal df = if b then "BUY" else "SELL")
    ∧ (∀ lastb : Bool, 2 ≤ (abovesOf df).length →
        (∀ i, i + 1 < (abovesOf df).length →
          (abovesOf df).getD i false = (abovesOf df).getD (i + 1) false) →
        (abovesOf df).getLast? = some lastb →
        findLastCrossoverSignal df = if lastb then "BUY" else "SELL") := by
  have hfb : 2 ≤ df.length →
      (detectCrossover none df).1.signal = findLastCrossoverSignal df
      ∧ (detectCrossover none df).2 = some (findLastCrossoverSignal df) := by
    intro h2
    obtain ⟨r0, r1, hlt⟩ := lastTwoRows_of_length df h2
    have hks : keepOrScan none df = some (findLastCrossoverSignal df) := rfl
    have hpy : pyOr (some (findLastCrossoverSignal df)) = findLastCrossoverSignal df := by
      rcases findLastCrossoverSignal_mem df with hm | hm <;> rw [hm] <;> rfl
    by_cases hv : (validRow r0 && validRow r1) = true
    · obtain ⟨hv0, hv1⟩ := Bool.and_eq_true _ _ |>.mp hv
      have heq : rowAbove r0 = rowAbove r1 := by
        unfold noFreshCross at hnf
        rw [hlt] at hnf
        simp only [hv0, hv1, Bool.true_and, Bool.not_eq_true'] at hnf
        simpa using hnf
      have hd := detect_nocross hlt hv0 hv1 heq none
      rw [hks, hpy] at hd
      exact ⟨hd.1, hd.2.1⟩
    · have hd := detect_invalid hlt (by simpa using hv) none
      rw [hks, hpy] at hd
      exact ⟨hd.1, hd.2.1⟩
  refine ⟨?_, hfb, ?_, ?_⟩
  · intro hv2
    by_cases hlen : df.length < 2
    · rw [detect_short hlen]
      rfl
    · rw [(hfb (by omega)).1]
      exact findLast_sell_of_fewValid hv2
  · intro xs ys a b hdec hab hys
    have hlen_v : (abovesOf df).length = xs.length + (ys.length + 2) := by
      rw [hdec]
      simp
    have hka : (abovesOf df).getD xs.length false = a := by
      rw [hdec, List.getD_append_right _ _ _ _ (le_refl _)]
      simp
    have hkb : (abovesOf df).getD (xs.length + 1) false = b := by
      rw [hdec, List.getD_append_right _ _ _ _ (by omega)]
      simp
    have hconst : ∀ i, xs.length + 1 ≤ i → i < (abovesOf df).length →
        (abovesOf df).getD i false = (abovesOf df).getD (xs.length + 1) false := by
      intro i hi1 hi2
      rw [hlen_v] at hi2
      rw [hkb, hdec, List.getD_append_right _ _ _ _ (by omega)]
      have hbys : ∀ x ∈ b :: ys, x = b := by
        intro x hx
        rcases List.mem_cons.mp hx with hx | hx
        · exact hx
        · exact hys x hx
      have hidx : i - xs.length = (i - xs.length - 1) + 1 := by omega
      rw [hidx, List.getD_cons_succ]
      refine getD_all_eq hbys ?_ false
      simp only [List.length_cons]
      omega
    have hfind : findCrossDesc (abovesOf df) ((abovesOf df).length - 1) =
        some ((abovesOf df).getD (xs.length + 1) false) :=
      findCrossDesc_finds (by omega) (by rw [hka, hkb]; exact fun h => hab h.symm)
        hconst ((abovesOf df).length - 1) (by omega) (by omega)
    have hvlen : 2 ≤ (validRows df).length := by
      have : (abovesOf df).length = (validRows df).length := by
        simp [abovesOf]
      omega
    have hdflen : ¬ df.length < 2 := by
      have hle : (validRows df).length ≤ df.length := List.length_filter_le _ _
      omega
    unfold findLastCrossoverSignal
    rw [if_neg hdflen, if_neg (by omega), hfind, hkb]
    cases b <;> rfl
  · intro lastb h2 hadj hlast
    have hfind := findCrossDesc_none hadj ((abovesOf df).length - 1) (by omega)
    have hvlen : 2 ≤ (validRows df).length := by
      have : (abovesOf df).length = (validRows df).length := by
        simp [abovesOf]
      omega
    have hdflen : ¬ df.length < 2 := by
      have hle : (validRows df).length ≤ df.length := List.length_filter_le _ _
      omega
    unfold findLastCrossoverSignal
    rw [if_neg hdflen, if_neg (by omega), hfind, hlast]
    cases lastb <;> rfl

/-- Witness for C5: an unset detector over a frame whose latest two
points agree (both above) recovers BUY from the historical up-crossing. -/
theorem c5_witness :
    (detectCrossover none [mkRow 1 2, mkRow 3 2, mkRow 4 2]).1.signal = "BUY" := by
  have h := c5_backward_scan_fallback [mkRow 1 2, mkRow 3 2, mkRow 4 2] (by decide)
  have h2 := (h.2.1 (by decide)).1
  have h3 := h.2.2.1 [] [true] false true (by decide) (by decide) (by decide)
  rw [h2, h3]
  simp

/-- C10.  Signal codomain: from any reachable detector state (`None`,
`"BUY"` or `"SELL"` — in particular before any crossover was ever seen),
both `detect_crossover` and `get_signal` answer exactly `"BUY"` or
`"SELL"` on every frame (empty, too short, or all-NaN included), and the
resulting state is again reachable. -/
theorem c10_signal_codomain (st : Option String) (hst : stateOK st = true) :
    (∀ df : List IndRow,
      ((detectCrossover st df).1.signal = "BUY"
        ∨ (detectCrossover st df).1.signal = "SELL")
      ∧ stateOK (detectCrossover st df).2 = true)
    ∧ (∀ (raised : Bool) (bars : List PriceRow),
      ((getSignal st raised bars).1.signal = "BUY"
        ∨ (getSignal st raised bars).1.signal = "SELL")
      ∧ stateOK (getSignal st raised bars).2 = true) := by
  have hks : ∀ df, stateOK (keepOrScan st df) = true
      ∧ (pyOr (keepOrScan st df) = "BUY" ∨ pyOr (keepOrScan st df) = "SELL") := by
    intro df
    refine ⟨keepOrScan_stateOK hst df, ?_⟩
    exact pyOr_of_stateOK (keepOrScan_stateOK hst df)
  have hdet : ∀ df : List IndRow,
      ((detectCrossover st df).1.signal = "BUY"
        ∨ (detectCrossover st df).1.signal = "SELL")
      ∧ stateOK (detectCrossover st df).2 = true := by
    intro df
    by_cases hlen : df.length < 2
    · rw [detect_short hlen]
      exact ⟨pyOr_of_stateOK hst, hst⟩
    · obtain ⟨r0, r1, hlt⟩ := lastTwoRows_of_length df (by omega)
      by_cases hv : (validRow r0 && validRow r1) = true
      · obtain ⟨hv0, hv1⟩ := Bool.and_eq_true _ _ |>.mp hv
        rcases ha0 : rowAbove r0 with _ | _ <;> rcases ha1 : rowAbove r1 with _ | _
        · have hd := detect_nocross hlt hv0 hv1 (ha0.trans ha1.symm) st
          rw [hd.1, hd.2.1]
          exact ⟨(hks df).2, (hks df).1⟩
        · have hd := detect_upcross hlt hv0 hv1 ha0 ha1 st
          rw [hd.1, hd.2.1]
          exact ⟨Or.inl rfl, by decide⟩
        · have hd := detect_downcross hlt hv0 hv1 ha0 ha1 st
          rw [hd.1, hd.2.1]
          exact ⟨Or.inr rfl, by decide⟩
        · have hd := detect_nocross hlt hv0 hv1 (ha0.trans ha1.symm) st
          rw [hd.1, hd.2.1]
          exact ⟨(hks df).2, (hks df).1⟩
      · have hd := detect_invalid hlt (by simpa using hv) st
        rw [hd.1, hd.2.1]
        exact ⟨(hks df).2, (hks df).1⟩
  refine ⟨hdet, ?_⟩
  intro raised bars
  unfold getSignal
  rcases raised with _ | _
  · simp only [Bool.false_eq_true, if_false]
    by_cases hb : bars = []
    · rw [if_pos hb]
      exact ⟨pyOr_of_stateOK hst, hst⟩
    · rw [if_neg hb]
      exact hdet (addTechnicalIndicators bars)
  · simp only [if_true]
    exact ⟨pyOr_of_stateOK hst, hst⟩

/-- Witness for C10: the never-crossed detector (state `None`) on an
empty frame and on an empty fetch still answers BUY or SELL. -/
theorem c10_witness :
    ((detectCrossover none []).1.signal = "BUY"
      ∨ (detectCrossover none []).1.signal = "SELL")
    ∧ ((getSignal none false []).1.signal = "BUY"
      ∨ (getSignal none false []).1.signal = "SELL") :=
  ⟨((c10_signal_codomain none (by decide)).1 []).1,
   ((c10_signal_codomain none (by decide)).2 false []).1⟩

theorem ewmAcc_length (alpha prev : ℚ) (l : List ℚ) :
    (ewmAcc alpha prev l).length = l.length := by
  induction l generalizing prev with
  | nil => rfl
  | cons c cs ih => simp [ewmAcc, ih]

theorem ewm_length (alpha : ℚ) (l : List ℚ) :
    (ewm alpha l).length = l.length := by
  cases l with
  | nil => rfl
  | cons c cs => simp [ewm, ewmAcc_length]

/-- The ewm recurrence, stated over the seeded stream. -/
theorem ewm_recurrence (alpha : ℚ) (l : List ℚ) (prev : ℚ) :
    ∀ i, i + 1 < (prev :: l).length →
      (prev :: ewmAcc alpha prev l).getD (i + 1) 0 =
        alpha * l.getD i 0 + (1 - alpha) * ((prev :: ewmAcc alpha prev l).getD i 0) := by
  induction l generalizing prev with
  | nil => intro i hi; simp at hi
  | cons c cs ih =>
    intro i hi
    cases i with
    | zero => simp [ewmAcc]
    | succ m =>
      have hstep := ih (alpha * c + (1 - alpha) * prev) m (by simpa using hi)
      simpa [ewmAcc] using hstep

theorem ewmAcc_const (alpha p : ℚ) : ∀ n : ℕ,
    ewmAcc alpha p (List.replicate n p) = List.replicate n p := by
  intro n
  induction n with
  | zero => rfl
  | succ m ih =>
    have he : alpha * p + (1 - alpha) * p = p := by ring
    simp only [List.replicate_succ, ewmAcc, he]
    rw [ih]

theorem ewm_const (alpha p : ℚ) (n : ℕ) :
    ewm alpha (List.replicate n p) = List.replicate n p := by
  cases n with
  | zero => rfl
  | succ m =>
    simp only [List.replicate_succ, ewm]
    rw [ewmAcc_const]

theorem foldl_ewm_const (alpha p : ℚ) (l : List ℚ) (h : ∀ x ∈ l, x = p) :
    l.foldl (fun e price => alpha * price + (1 - alpha) * e) p = p := by
  induction l with
  | nil => rfl
  | cons c cs ih =>
    have hc : c = p := h c (List.mem_cons_self c cs)
    have he : alpha * c + (1 - alpha) * p = p := by rw [hc]; ring
    simp only [List.foldl_cons, he]
    exact ih fun x hx => h x (List.mem_cons_of_mem c hx)

theorem sum_const_list (p : ℚ) (l : List ℚ) (h : ∀ x ∈ l, x = p) :
    l.sum = l.length * p := by
  induction l with
  | nil => simp
  | cons c cs ih =>
    have hc : c = p := h c (List.mem_cons_self c cs)
    have := ih fun x hx => h x (List.mem_cons_of_mem c hx)
    simp [hc, this]
    ring

/-- C8.  EMA seeding and recurrence: for a non-empty close series the
computed EMA has one value per bar (no warm-up gap), is seeded with the
first close, obeys `EMA_i = alpha * close_i + (1 - alpha) * EMA_{i-1}`
with `alpha = 2 / (period + 1)`, and maps a constant series to itself;
the aggregate variant `get_ema` also maps any constant input to that
constant. -/
theorem c8_ema_seed_recurrence (period : ℕ) (closes : List ℚ)
    (h : closes ≠ []) :
    (calculate_ema period closes).length = closes.length
    ∧ (calculate_ema period closes).head? = closes.head?
    ∧ (∀ i, i + 1 < closes.length →
        (calculate_ema period closes).getD (i + 1) 0 =
          (2 / ((period : ℚ) + 1)) * closes.getD (i + 1) 0
            + (1 - 2 / ((period : ℚ) + 1)) * (calculate_ema period closes).getD i 0)
    ∧ (∀ (p : ℚ) (n : ℕ), calculate_ema period (List.replicate n p) = List.replicate n p)
    ∧ (∀ (p : ℚ) (aggs : List ℚ), 0 < period → aggs ≠ [] →
        (∀ x ∈ aggs, x = p) → aggGetEma period aggs = some p) := by
  refine ⟨ewm_length _ _, ?_, ?_, fun p n => ewm_const _ p n, ?_⟩
  · cases closes with
    | nil => rfl
    | cons c cs => rfl
  · cases closes with
    | nil => exact absurd rfl h
    | cons c cs =>
      intro i hi
      have := ewm_recurrence (2 / ((period : ℚ) + 1)) cs c i hi
      simpa [calculate_ema, ewm, List.getD_cons_succ] using this
  · intro p aggs hper hne hall
    unfold aggGetEma
    rw [if_neg hne]
    have htake : ∀ x ∈ (aggs.take period).reverse, x = p := by
      intro x hx
      exact hall x (List.mem_of_mem_take (List.mem_reverse.mp hx))
    have hlen : (aggs.take period).reverse ≠ [] := by
      simp only [ne_eq, List.reverse_eq_nil_iff]
      intro hcon
      have := List.take_eq_nil_iff.mp hcon
      rcases this with h1 | h1
      · omega
      · exact hne h1
    by_cases hp : period ≤ ((aggs.take period).reverse).length
    · rw [if_pos hp]
      rcases e : (aggs.take period).reverse with _ | ⟨c, cs⟩
      · exact absurd e hlen
      · have hc : c = p := by
          have : c ∈ (aggs.take period).reverse := by rw [e]; exact List.mem_cons_self c cs
          exact htake c this
        have hcs : ∀ x ∈ cs, x = p := by
          intro x hx
          have : x ∈ (aggs.take period).reverse := by
            rw [e]; exact List.mem_cons_of_mem c hx
          exact htake x this
        rw [hc]
        show some (cs.foldl
          (fun e price =>
            (2 / ((period : ℚ) + 1)) * price + (1 - 2 / ((period : ℚ) + 1)) * e) p) = some p
        rw [foldl_ewm_const _ p cs hcs]
    · rw [if_neg hp]
      have hsum := sum_const_list p _ htake
      rw [hsum]
      have hlen0 : ((aggs.take period).reverse).length ≠ 0 := by
        simpa [List.length_eq_zero] using hlen
      have hcast : (((aggs.take period).reverse).length : ℚ) ≠ 0 := by
        exact_mod_cast hlen0
      rw [mul_comm, mul_div_assoc, div_self hcast, mul_one]

/-- Witness for C8 at `period = 9`, `closes = [3, 1]`: one concrete
recurrence instance. -/
theorem c8_witness :
    ([3, 1] : List ℚ) ≠ []
    ∧ (calculate_ema 9 [3, 1]).getD 1 0 =
        (2 / ((9 : ℕ) + 1 : ℚ)) * ([3, 1] : List ℚ).getD 1 0
          + (1 - 2 / ((9 : ℕ) + 1 : ℚ)) * (calculate_ema 9 [3, 1]).getD 0 0 :=
  ⟨by decide, (c8_ema_seed_recurrence 9 [3, 1] (by decide)).2.2.1 0 (by decide)⟩

/-- C6.  Session halt boundary: the halt condition of `run_bot` holds iff
`pnl ≤ dailyPnlThreshold` or `pnl ≥ dailyGainTarget` (both inclusive);
with `initialValue = 1000` and threshold `-0.05`, a current value of
`949.99` halts and `950.01` does not. -/
theorem c6_session_halt (pnl thr tgt : ℚ) :
    (haltCondition pnl thr tgt = true ↔ (pnl ≤ thr ∨ tgt ≤ pnl))
    ∧ haltCondition
        (calculate_pnl { initialValue := 1000, currentValue := 94999/100, currentPosition := 0 })
        (-(5/100)) (10/100) = true
    ∧ haltCondition
        (calculate_pnl { initialValue := 1000, currentValue := 95001/100, currentPosition := 0 })
        (-(5/100)) (10/100) = false := by
  refine ⟨?_, ?_, ?_⟩
  · simp [haltCondition]
  · simp only [haltCondition, calculate_pnl, Bool.or_eq_true, decide_eq_true_eq]
    left
    norm_num
  · simp only [haltCondition, calculate_pnl, Bool.or_eq_false_iff,
      decide_eq_false_iff_not]
    constructor <;> norm_num

/-- C4 counterexample: `TradingBot.run` converts an exception into a
record whose signal is `"ERROR"`, not `"SELL"`, so the claim as stated
over both cycle implementations is false. -/
theorem c4_counterexample :
    (tradingRunBoundary 1000 (Except.error "boom")).signal ≠ "SELL" := by decide

/-- C4 amended: every exception inside the cycle body is caught at the
`run` boundary (both boundary functions are total, so nothing
propagates); `BlingBot.run` answers the SELL-biased default with
`trade_executed = false` and the tracked value, while `TradingBot.run`
answers the same shape with signal `"ERROR"`. -/
theorem c4_cycle_failsafe (e : String) (cv : ℚ) :
    (blingRunBoundary cv (Except.error e)).signal = "SELL"
    ∧ (blingRunBoundary cv (Except.error e)).trade_executed = false
    ∧ (blingRunBoundary cv (Except.error e)).per_symbol_value = cv
    ∧ (tradingRunBoundary cv (Except.error e)).signal = "ERROR"
    ∧ (tradingRunBoundary cv (Except.error e)).trade_executed = false :=
  ⟨rfl, rfl, rfl, rfl, rfl⟩

/-- C3 counterexample: with a prior tracked value within $0.01 of the
initial value (here $1000.005), a NotFound refresh does NOT reset
`current_value` to `initial_value` — the epsilon guard in
`_update_current_value` suppresses the write. -/
theorem c3_counterexample :
    (getOpenPosition
        { initialValue := 1000, currentValue := 1000 + 1/200, currentPosition := 5 }
        none).1.currentValue ≠ 1000 := by
  have hcond : ¬ ((1 : ℚ)/100 < |(1000 : ℚ) - (1000 + 1/200)|) := by
    rw [show ((1000 : ℚ) - (1000 + 1/200)) = -(1/200) by ring, abs_neg,
      abs_of_nonneg (by norm_num)]
    norm_num
  simp only [getOpenPosition, updateCurrentValue, if_neg hcond]
  norm_num

/-- C3 amended: after a NotFound refresh, `current_value` becomes
`initial_value` exactly when the prior value differed from it by more
than $0.01; otherwise it keeps the prior value (already within $0.01 of
the initial value).  The tracked position and the returned quantity are
both zeroed. -/
theorem c3_capital_reset (st : BotState) :
    (getOpenPosition st none).1.currentValue =
      (if 1/100 < |st.initialValue - st.currentValue| then st.initialValue
       else st.currentValue)
    ∧ (getOpenPosition st none).1.currentPosition = 0
    ∧ (getOpenPosition st none).2 = 0 := by
  simp only [getOpenPosition, updateCurrentValue]
  split <;> simp

/-- The position quantity reported by `get_open_position`: the broker's
quantity, or 0 on NotFound. -/
def brokerQty : Option BrokerPos → ℚ
  | some p => p.qty
  | none => 0

theorem getOpenPosition_qty (st : BotState) (broker : Option BrokerPos) :
    (getOpenPosition st broker).2 = brokerQty broker := by
  rcases broker with _ | p
  · rfl
  · rcases hm : p.marketValue with _ | mv <;>
      simp [getOpenPosition, brokerQty, hm]

/-- C2 counterexample: `TradingBot.execute_trade` submits a buy order on
a BUY signal even though the broker already reports 10 shares — it
pyramids whenever the position is not short, so the claim as stated over
both controllers is false. -/
theorem c2_counterexample :
    (tradingExecuteTrade { initialValue := 1000, currentValue := 1000, currentPosition := 0 }
        (some { qty := 10, marketValue := none }) true "BUY" (some 100)).2.2 =
      [{ side := "BUY", notional := some 1000, qty := none }]
    ∧ (tradingExecuteTrade { initialValue := 1000, currentValue := 1000, currentPosition := 0 }
        (some { qty := 10, marketValue := none }) true "BUY" (some 100)).2.1 = true := by
  simp only [tradingExecuteTrade, tGetOpenPosition]
  norm_num
  have hp : pyInt (9 : ℚ) = 9 := by
    unfold pyInt
    rw [if_pos (by norm_num)]
    norm_num
  rw [hp, if_neg (by decide), if_neg (by decide)]
  exact ⟨rfl, rfl⟩

/-- C2 amended: `BlingBot.execute_trade` never pyramids: on a BUY signal
it submits exactly one notional buy — sized to the whole tracked value
after the position refresh — when the broker reports quantity 0, and
submits nothing (reporting the trade as not executed) whenever the
quantity is nonzero; hence repeating the decision with an unchanged
nonzero position never submits a second buy.  (`TradingBot`'s variant
buys whenever the position is not short.) -/
theorem c2_no_pyramiding (st : BotState) (broker : Option BrokerPos)
    (closeOk : Bool) :
    (blingExecuteTrade st broker closeOk "BUY").2.2 =
      (if brokerQty broker = 0 then
        [{ side := "BUY",
           notional := some ((getOpenPosition st broker).1.currentValue),
           qty := none }]
       else [])
    ∧ (blingExecuteTrade st broker closeOk "BUY").2.1 =
        decide (brokerQty broker = 0) := by
  have hq2 := getOpenPosition_qty st broker
  simp only [blingExecuteTrade]
  rw [hq2]
  simp only [if_true]
  by_cases hq : brokerQty broker = 0
  · rw [if_pos hq, if_pos hq]
    simp [hq]
  · rw [if_neg hq, if_neg hq]
    simp [hq]

/-- C9 counterexample: `add_technical_indicators` adds the indicator
columns on the caller's DataFrame object in place, so the caller's frame
after the call differs from the frame passed in — the computation is not
free of side effects on its input. -/
theorem c9_counterexample :
    (addTechnicalIndicatorsFull
        { rows := [{ ts := 0, close := 1 }], emaCol := none, smaCol := none }).2
      ≠ { rows := [{ ts := 0, close := 1 }], emaCol := none, smaCol := none } := by
  intro hcon
  have := congrArg DF.emaCol hcon
  simp [addTechnicalIndicatorsFull] at this

/-- C9 amended: the algos-variant `calculate_indicators` works on a copy,
so the caller's frame is unchanged in every case (including the raising
one); `add_technical_indicators` leaves the price rows unchanged but
returns the very frame object it mutated, whose indicator columns now
differ from the input's whenever the frame is non-empty. -/
theorem c9_indicator_purity (df : DF) :
    (calculateIndicatorsFull df).2 = df
    ∧ ((addTechnicalIndicatorsFull df).2).rows = df.rows
    ∧ (addTechnicalIndicatorsFull df).1 = (addTechnicalIndicatorsFull df).2 := by
  refine ⟨?_, ?_, ?_⟩
  · unfold calculateIndicatorsFull
    split <;> rfl
  · unfold addTechnicalIndicatorsFull
    split <;> rfl
  · unfold addTechnicalIndicatorsFull
    split <;> rfl

end Bilbot

